import Mathlib

/-!
# Verification of `wiki-dump-to-html`

A shallow embedding of the core of `src/bin/wiki-dump-to-html/main.rs`:
the namespace classifier inside `extract_pages`, and the recursive HTML
renderer `write_nodes`. Page text and renderer output are modelled as byte
sequences (`List Nat`); Rust string slicing `&page_text[s..e]` is modelled
by `strSlice`, which performs exactly Rust's bounds and UTF-8
char-boundary checks and fails (returns `none`) exactly when the Rust
indexing would panic. The I/O sink of the Rust code is modelled by
returning the emitted bytes; `write!` calls become list concatenation.
-/

/-- ASCII string literal as a byte sequence, for the HTML fragments the
renderer emits with `w!`. -/
def lit (s : String) : List Nat := s.data.map Char.toNat

/-- Rust's `str::is_char_boundary`: position 0 is always a boundary, as
is the length of the text; an interior position is a boundary when its
byte is not a UTF-8 continuation byte (`b < 0x80 || b >= 0xC0`);
positions past the end are not boundaries. -/
def isCharBoundary (t : List Nat) (i : Nat) : Bool :=
  if i = 0 then true
  else if i = t.length then true
  else
    match t.get? i with
    | some b => b < 0x80 || 0xC0 ≤ b
    | none => false

/-- Rust's `&t[s..e]` on a `&str`: succeeds with the byte subsequence
from `s` (inclusive) to `e` (exclusive) when `s ≤ e` and both ends are
char boundaries; otherwise the Rust code panics, modelled as `none`. -/
def strSlice (t : List Nat) (s e : Nat) : Option (List Nat) :=
  if s ≤ e ∧ isCharBoundary t s ∧ isCharBoundary t e then
    some ((t.drop s).take (e - s))
  else none

mutual
/-- The node tree consumed by `write_nodes` (`parse_wiki_text::Node`).
Every variant carries its `(start, end)` byte offsets (the `Positioned`
trait); the variants the renderer does not name fall into the catch-all
`other`. -/
inductive Node : Type where
  | preformatted (start end_ : Nat) (nodes : List Node)
  | heading (start end_ : Nat) (level : Nat) (nodes : List Node)
  | horizontalDivider (start end_ : Nat)
  | bold (start end_ : Nat)
  | boldItalic (start end_ : Nat)
  | italic (start end_ : Nat)
  | tag (start end_ : Nat) (name : String) (nodes : List Node)
  | orderedList (start end_ : Nat) (items : List ListItem)
  | unorderedList (start end_ : Nat) (items : List ListItem)
  | category (start end_ : Nat)
  | other (start end_ : Nat)

/-- `parse_wiki_text::ListItem`: `{ start, end, nodes }`. -/
inductive ListItem : Type where
  | mk (start end_ : Nat) (nodes : List Node)
end

/-- `Positioned::start` of a node. -/
def Node.start : Node → Nat
  | .preformatted s _ _ => s
  | .heading s _ _ _ => s
  | .horizontalDivider s _ => s
  | .bold s _ => s
  | .boldItalic s _ => s
  | .italic s _ => s
  | .tag s _ _ _ => s
  | .orderedList s _ _ => s
  | .unorderedList s _ _ => s
  | .category s _ => s
  | .other s _ => s

/-- `Positioned::end` of a node. -/
def Node.end_ : Node → Nat
  | .preformatted _ e _ => e
  | .heading _ e _ _ => e
  | .horizontalDivider _ e => e
  | .bold _ e => e
  | .boldItalic _ e => e
  | .italic _ e => e
  | .tag _ e _ _ => e
  | .orderedList _ e _ => e
  | .unorderedList _ e _ => e
  | .category _ e => e
  | .other _ e => e

/-- The three toggle flags of one `write_nodes` invocation
(`is_bold_open`, `is_bold_italic_open`, `is_italic_open` at
`main.rs:157-159`). -/
structure RenderState where
  is_bold_open : Bool
  is_bold_italic_open : Bool
  is_italic_open : Bool
  deriving DecidableEq

/-- The flag state at the top of a `write_nodes` call: all three local
`let mut` flags start `false`. -/
def RenderState.init : RenderState := ⟨false, false, false⟩

/-- The loop body of the `syntaxhighlight` arm (`main.rs:216-223`): for
each child emit `<pre>`, the verbatim slice of the page text at the
child's own offsets, `</pre>`. -/
def writeSyntaxChildren (pt : List Nat) : List Node → Option (List Nat)
  | [] => some []
  | c :: cs => do
    let s ← strSlice pt c.start c.end_
    let rest ← writeSyntaxChildren pt cs
    some (lit "<pre>" ++ s ++ lit "</pre>" ++ rest)

mutual
/-- One arm of the `match node` at `main.rs:164-256`. `st` is the
current value of the caller's three flag variables; the result is the
emitted bytes together with the flags after this node. A recursive call
on a child sequence is the Rust call `write_nodes(writer, page_text, c)`:
it runs the node loop from fresh `false` flags (`RenderState.init`) and
its final flags are locals of that call and are discarded — written
inline here (rather than through the `write_nodes` wrapper below) so the
recursion is structural. -/
def writeNode (pt : List Nat) (st : RenderState) : Node → Option (List Nat × RenderState)
  | .preformatted _ _ nodes => do
    let (inner, _) ← writeNodesAux pt RenderState.init nodes
    some (lit "<pre>" ++ inner ++ lit "</pre>", st)
  | .heading _ _ level nodes => do
    let l := level + 2
    let (inner, _) ← writeNodesAux pt RenderState.init nodes
    some (lit "<h" ++ lit (Nat.repr l) ++ lit ">" ++ inner
          ++ lit "</h" ++ lit (Nat.repr l) ++ lit ">", st)
  | .horizontalDivider _ _ =>
    some (lit "<hr />", st)
  | .bold _ _ =>
    let b := !st.is_bold_open
    some (if b then lit "<span style=\"font-weight:bold;\">" else lit "</span>",
          { st with is_bold_open := b })
  | .boldItalic _ _ =>
    let b := !st.is_bold_italic_open
    some (if b then lit "<span style=\"font-weight:bold;font-style:italic;\">"
          else lit "</span>",
          { st with is_bold_italic_open := b })
  | .italic _ _ =>
    let b := !st.is_italic_open
    some (if b then lit "<span style=\"font-style:italic;\">" else lit "</span>",
          { st with is_italic_open := b })
  | .tag s e name nodes =>
    if name = "syntaxhighlight" then do
      let out ← writeSyntaxChildren pt nodes
      some (out, st)
    else do
      let sub ← strSlice pt s e
      some (sub, st)
  | .orderedList _ _ items => do
    let inner ← writeItems pt items
    some (lit "<ol>" ++ inner ++ lit "</ol>", st)
  | .unorderedList _ _ items => do
    let inner ← writeItems pt items
    some (lit "<ul>" ++ inner ++ lit "</ul>", st)
  | .category _ _ =>
    some ([], st)
  | .other s e => do
    let sub ← strSlice pt s e
    some (sub, st)

/-- The `for item in items` loops of the list arms
(`main.rs:230-234, 242-246`): each item is wrapped in `<li>...</li>`
around a fresh recursive `write_nodes` call on the item's nodes. -/
def writeItems (pt : List Nat) : List ListItem → Option (List Nat)
  | [] => some []
  | .mk _ _ ns :: rest => do
    let (inner, _) ← writeNodesAux pt RenderState.init ns
    let restOut ← writeItems pt rest
    some (lit "<li>" ++ inner ++ lit "</li>" ++ restOut)

/-- The `for node in nodes.iter()` loop of `write_nodes`
(`main.rs:161-257`), threading the three flag variables through the
sequence. -/
def writeNodesAux (pt : List Nat) (st : RenderState) : List Node → Option (List Nat × RenderState)
  | [] => some ([], st)
  | n :: ns => do
    let (o, st') ← writeNode pt st n
    let (os, st'') ← writeNodesAux pt st' ns
    some (o ++ os, st'')
end

/-- `write_nodes` (`main.rs:143-260`): declares its own three flag
variables initialized to `false`, then runs the node loop; the flags are
locals of this invocation and die with it, only the emitted bytes
escape. -/
def write_nodes (pt : List Nat) (ns : List Node) : Option (List Nat) :=
  (writeNodesAux pt RenderState.init ns).map Prod.fst

/-- The `syntaxhighlight` arm slices each child's own span; this records
that all those slices are in bounds and boundary-aligned. -/
def spanOkHighlightChildren (pt : List Nat) (ns : List Node) : Bool :=
  ns.all fun c => (strSlice pt c.start c.end_).isSome

mutual
/-- The offset pairs that rendering `n` actually slices are all valid:
the catch-all span of an unhandled node or a non-`syntaxhighlight` tag,
the children's own spans under a `syntaxhighlight` tag, and recursively
the spans sliced while rendering child sequences. Toggle, divider and
category nodes slice nothing. -/
def spanOkNode (pt : List Nat) : Node → Bool
  | .preformatted _ _ ns => spanOkList pt ns
  | .heading _ _ _ ns => spanOkList pt ns
  | .horizontalDivider _ _ => true
  | .bold _ _ => true
  | .boldItalic _ _ => true
  | .italic _ _ => true
  | .tag s e name ns =>
    if name = "syntaxhighlight" then spanOkHighlightChildren pt ns
    else (strSlice pt s e).isSome
  | .orderedList _ _ items => spanOkItems pt items
  | .unorderedList _ _ items => spanOkItems pt items
  | .category _ _ => true
  | .other s e => (strSlice pt s e).isSome

/-- `spanOkNode` over the node sequences of a run of list items. -/
def spanOkItems (pt : List Nat) : List ListItem → Bool
  | [] => true
  | .mk _ _ ns :: rest => spanOkList pt ns && spanOkItems pt rest

/-- `spanOkNode` over a node sequence. -/
def spanOkList (pt : List Nat) : List Node → Bool
  | [] => true
  | n :: ns => spanOkNode pt n && spanOkList pt ns
end

mutual
/-- Every node in the tree, of whatever variant, has its own
`(start, end)` pair addressing a valid region of `pt`, children
included. -/
def allSpanNode (pt : List Nat) : Node → Bool
  | .preformatted s e ns => (strSlice pt s e).isSome && allSpanList pt ns
  | .heading s e _ ns => (strSlice pt s e).isSome && allSpanList pt ns
  | .horizontalDivider s e => (strSlice pt s e).isSome
  | .bold s e => (strSlice pt s e).isSome
  | .boldItalic s e => (strSlice pt s e).isSome
  | .italic s e => (strSlice pt s e).isSome
  | .tag s e _ ns => (strSlice pt s e).isSome && allSpanList pt ns
  | .orderedList s e items => (strSlice pt s e).isSome && allSpanItems pt items
  | .unorderedList s e items => (strSlice pt s e).isSome && allSpanItems pt items
  | .category s e => (strSlice pt s e).isSome
  | .other s e => (strSlice pt s e).isSome

/-- `allSpanNode` over list items (the item's own span included). -/
def allSpanItems (pt : List Nat) : List ListItem → Bool
  | [] => true
  | .mk s e ns :: rest =>
    (strSlice pt s e).isSome && allSpanList pt ns && allSpanItems pt rest

/-- `allSpanNode` over a node sequence. -/
def allSpanList (pt : List Nat) : List Node → Bool
  | [] => true
  | n :: ns => allSpanNode pt n && allSpanList pt ns
end

mutual
/-- Modelled from the spec: the renderer as §4.2 and §9 of the design
document describe it, with one `RenderState` instance shared across the
entire document render — every recursive call on a child node sequence
receives the caller's current flags and hands its final flags back, so a
toggle node at any depth flips the same flag a top-level toggle node
flips. Identical to `writeNode` in every other respect. -/
def writeNodeShared (pt : List Nat) (st : RenderState) : Node → Option (List Nat × RenderState)
  | .preformatted _ _ nodes => do
    let (inner, st') ← writeNodesSharedAux pt st nodes
    some (lit "<pre>" ++ inner ++ lit "</pre>", st')
  | .heading _ _ level nodes => do
    let l := level + 2
    let (inner, st') ← writeNodesSharedAux pt st nodes
    some (lit "<h" ++ lit (Nat.repr l) ++ lit ">" ++ inner
          ++ lit "</h" ++ lit (Nat.repr l) ++ lit ">", st')
  | .horizontalDivider _ _ =>
    some (lit "<hr />", st)
  | .bold _ _ =>
    let b := !st.is_bold_open
    some (if b then lit "<span style=\"font-weight:bold;\">" else lit "</span>",
          { st with is_bold_open := b })
  | .boldItalic _ _ =>
    let b := !st.is_bold_italic_open
    some (if b then lit "<span style=\"font-weight:bold;font-style:italic;\">"
          else lit "</span>",
          { st with is_bold_italic_open := b })
  | .italic _ _ =>
    let b := !st.is_italic_open
    some (if b then lit "<span style=\"font-style:italic;\">" else lit "</span>",
          { st with is_italic_open := b })
  | .tag s e name nodes =>
    if name = "syntaxhighlight" then do
      let out ← writeSyntaxChildren pt nodes
      some (out, st)
    else do
      let sub ← strSlice pt s e
      some (sub, st)
  | .orderedList _ _ items => do
    let (inner, st') ← writeItemsShared pt st items
    some (lit "<ol>" ++ inner ++ lit "</ol>", st')
  | .unorderedList _ _ items => do
    let (inner, st') ← writeItemsShared pt st items
    some (lit "<ul>" ++ inner ++ lit "</ul>", st')
  | .category _ _ =>
    some ([], st)
  | .other s e => do
    let sub ← strSlice pt s e
    some (sub, st)

/-- Modelled from the spec: list items under the shared-state reading,
threading the shared flags through every item. -/
def writeItemsShared (pt : List Nat) (st : RenderState) : List ListItem → Option (List Nat × RenderState)
  | [] => some ([], st)
  | .mk _ _ ns :: rest => do
    let (inner, st') ← writeNodesSharedAux pt st ns
    let (restOut, st'') ← writeItemsShared pt st' rest
    some (lit "<li>" ++ inner ++ lit "</li>" ++ restOut, st'')

/-- Modelled from the spec: a node sequence under the shared-state
reading. -/
def writeNodesSharedAux (pt : List Nat) (st : RenderState) : List Node → Option (List Nat × RenderState)
  | [] => some ([], st)
  | n :: ns => do
    let (o, st') ← writeNodeShared pt st n
    let (os, st'') ← writeNodesSharedAux pt st' ns
    some (o ++ os, st'')
end

/-- Modelled from the spec: a whole-document render under the
shared-state reading; only the top-level call starts from all-false
flags. -/
def write_nodes_shared (pt : List Nat) (ns : List Node) : Option (List Nat) :=
  (writeNodesSharedAux pt RenderState.init ns).map Prod.fst

/-- The namespace classes of §4.1 of the design document. -/
inductive NamespaceClass : Type where
  | Meta
  | FileNamespace
  | Content
  deriving DecidableEq

/-- The page record the dump decoder yields (`parse_mediawiki_dump::Page`):
only the fields the core reads. `namespace` is a Rust keyword-free field
there; Lean reserves the word, hence the trailing underscore. -/
structure Page where
  title : String
  namespace_ : Nat
  text : List Nat

/-- The namespace match of `extract_pages` (`main.rs:315-352`), read as
the classifier of §4.1: the first arm lists, in source order, TALK (1),
USER (2), USER_TALK (3), MESSAGE_WALL (1200), THREAD (1201),
MESSAGE_WALL_GREETING (1202), USER_BLOG_COMMENT (501), TEMPLATE (10),
CATEGORY (14), CATEGORY_TALK (15), BOARD (2000), MEDIA_WIKI (8),
BLOG (502); the second arm FILE (6); the wildcard arm admits the page. -/
def classify (n : Nat) : NamespaceClass :=
  match n with
  | 1 | 2 | 3 | 1200 | 1201 | 1202 | 501 | 10 | 14 | 15 | 2000 | 8 | 502 =>
    NamespaceClass.Meta
  | 6 => NamespaceClass.FileNamespace
  | _ => NamespaceClass.Content

/-- `extract_pages` (`main.rs:286-356`) restricted to its page-filtering
logic: the loop pushes onto `pages`, in input order, exactly the records
whose namespace falls through to the wildcard arm of the match; the two
named arms only log in verbose mode. -/
def extract_pages : List Page → List Page
  | [] => []
  | page :: rest =>
    match page.namespace_ with
    | 1 | 2 | 3 | 1200 | 1201 | 1202 | 501 | 10 | 14 | 15 | 2000 | 8 | 502 =>
      extract_pages rest
    | 6 => extract_pages rest
    | _ => page :: extract_pages rest

/-- The per-page loop of `main` (`main.rs:123-135`): each admitted page
contributes, in order, one fragment (title heading, rendered body,
separator); the per-page fragment is abstracted as `render1`. -/
def renderLoop (render1 : Page → List Nat) (ps : List Page) : List Nat :=
  ps.foldl (fun acc p => acc ++ render1 p) []

/-- The Meta namespace codes, in the order the specification lists them. -/
def metaCodes : List Nat := [1, 2, 3, 10, 14, 15, 501, 502, 1200, 1201, 1202, 2000, 8]

/-- A node is one of the three inline-style toggle delimiters. -/
def Node.isToggle : Node → Bool
  | .bold _ _ => true
  | .boldItalic _ _ => true
  | .italic _ _ => true
  | _ => false

/-- The effect of one top-level node on the three flag variables of the
enclosing `write_nodes` invocation: the three toggle arms flip their
flag; every other arm leaves the flags alone. -/
def toggleStep (st : RenderState) : Node → RenderState
  | .bold _ _ => { st with is_bold_open := !st.is_bold_open }
  | .boldItalic _ _ => { st with is_bold_italic_open := !st.is_bold_italic_open }
  | .italic _ _ => { st with is_italic_open := !st.is_italic_open }
  | _ => st

theorem classify_eq_ite (n : Nat) :
    classify n = if n ∈ metaCodes then NamespaceClass.Meta
      else if n = 6 then NamespaceClass.FileNamespace
      else NamespaceClass.Content := by
  unfold classify
  split
  all_goals try decide
  rename_i h1 h2 h3 h4 h5 h6 h7 h8 h9 h10 h11 h12 h13 h14
  have hm : ¬ (n ∈ metaCodes) := by
    intro hmem
    simp only [metaCodes, List.mem_cons, List.not_mem_nil, or_false] at hmem
    rcases hmem with h | h | h | h | h | h | h | h | h | h | h | h | h
    exacts [h1 h, h2 h, h3 h, h8 h, h9 h, h10 h, h7 h, h13 h, h4 h, h5 h, h6 h, h11 h, h12 h]
  rw [if_neg hm, if_neg h14]

theorem extract_pages_cons (p : Page) (rest : List Page) :
    extract_pages (p :: rest) =
      (if classify p.namespace_ = NamespaceClass.Content then [p] else [])
        ++ extract_pages rest := by
  rw [extract_pages]
  split <;> simp_all [classify_eq_ite, metaCodes]

theorem foldl_append_flatten (f : Page → List Nat) (l : List Page) (a : List Nat) :
    l.foldl (fun acc p => acc ++ f p) a = a ++ (l.map f).flatten := by
  induction l generalizing a with
  | nil => simp
  | cons p l ih => simp [List.foldl_cons, ih]

/-- C2: classification is total on every representable namespace code and
partitions it: the thirteen listed codes are `Meta`, 6 is
`FileNamespace`, every other integer (0 included) is `Content`; and
`extract_pages` admits a page to rendering exactly when its namespace
is classified `Content`. -/
theorem classify_total_partition (n : Nat) (title : String) (text : List Nat) :
    (classify n = NamespaceClass.Meta ↔ n ∈ metaCodes) ∧
    (classify n = NamespaceClass.FileNamespace ↔ n = 6) ∧
    (classify n = NamespaceClass.Content ↔ (n ∉ metaCodes ∧ n ≠ 6)) ∧
    extract_pages [⟨title, n, text⟩] =
      (if classify n = NamespaceClass.Content then [⟨title, n, text⟩] else []) := by
  refine ⟨?_, ?_, ?_, by rw [extract_pages_cons]; simp [extract_pages]⟩
  all_goals rw [classify_eq_ite]
  all_goals split_ifs with h1 h2 <;> simp_all [metaCodes] <;> omega

/-- C10: page extraction is the order-preserving filter keeping exactly
the records whose namespace is outside the Meta and File sets
(classified `Content`), and the rendering loop of `main` emits the
admitted pages' fragments in that same order. -/
theorem extract_pages_order_filter (ps : List Page) (render1 : Page → List Nat) :
    extract_pages ps =
      ps.filter (fun p => decide (classify p.namespace_ = NamespaceClass.Content)) ∧
    renderLoop render1 (extract_pages ps) =
      ((extract_pages ps).map render1).flatten := by
  constructor
  · induction ps with
    | nil => rfl
    | cons p rest ih =>
      rw [extract_pages_cons, ih, List.filter_cons]
      split_ifs with h <;> simp_all
  · rw [renderLoop, foldl_append_flatten]
    simp

/-- C8: a `Category` node emits nothing and leaves the toggle flags
unchanged; a sequence consisting of one `Category` node renders to the
empty output. -/
theorem category_emits_nothing (pt : List Nat) (s e : Nat) (st : RenderState) :
    writeNode pt st (.category s e) = some ([], st) ∧
    write_nodes pt [.category s e] = some [] := by
  constructor
  · simp [writeNode]
  · simp [write_nodes, writeNodesAux, writeNode]

/-- C4: a catch-all node, and any `Tag` whose name is not
`syntaxhighlight`, emits exactly the source-text bytes between its own
offsets, and the tag's children are not rendered (the emitted bytes do
not depend on them); the flags pass through unchanged. -/
theorem fallback_verbatim (pt : List Nat) (st : RenderState) (s e : Nat)
    (sub : List Nat) (name : String) (cs : List Node)
    (hname : name ≠ "syntaxhighlight") (hslice : strSlice pt s e = some sub) :
    writeNode pt st (.other s e) = some (sub, st) ∧
    writeNode pt st (.tag s e name cs) = some (sub, st) := by
  constructor
  · simp [writeNode, hslice]
  · simp [writeNode, hname, hslice]

/-- Witness for C4 on the two-byte text `"ab"` with a non-highlight tag
carrying a child that is never rendered. -/
theorem fallback_verbatim_witness :
    writeNode (lit "ab") RenderState.init (.other 0 2) = some (lit "ab", RenderState.init) ∧
    writeNode (lit "ab") RenderState.init (.tag 0 2 "b" [.bold 0 0]) =
      some (lit "ab", RenderState.init) :=
  fallback_verbatim (lit "ab") RenderState.init 0 2 (lit "ab") "b" [.bold 0 0]
    (by decide) (by decide)

/-- C3: a heading of level `lvl` emits its children's rendering between
opening and closing tags at level `lvl + 2`, with no clamping of the
resulting level. -/
theorem heading_level_plus_two (pt : List Nat) (st : RenderState) (s e lvl : Nat)
    (ns : List Node) (inner : List Nat)
    (h : write_nodes pt ns = some inner) :
    writeNode pt st (.heading s e lvl ns) =
      some (lit "<h" ++ lit (Nat.repr (lvl + 2)) ++ lit ">" ++ inner
            ++ lit "</h" ++ lit (Nat.repr (lvl + 2)) ++ lit ">", st) := by
  rw [write_nodes] at h
  obtain ⟨⟨inner', st'⟩, haux, hfst⟩ := Option.map_eq_some'.mp h
  simp only [Prod.fst] at hfst
  subst hfst
  simp [writeNode, haux]

/-- Witness for C3: `Heading{level: 1}` over a fallback node spanning
`"Intro"` renders as `<h3>Intro</h3>`. -/
theorem heading_level_plus_two_witness :
    writeNode (lit "Intro") RenderState.init (.heading 0 5 1 [.other 0 5]) =
      some (lit "<h3>Intro</h3>", RenderState.init) := by
  rw [heading_level_plus_two (lit "Intro") RenderState.init 0 5 1 [.other 0 5] (lit "Intro")
    (by decide)]
  decide

/-- C6: starting with the bold flag down, two consecutive `Bold` nodes
emit the opening bold span immediately followed by the closing tag, and
hand back exactly the incoming flag state (the bold flag is false again,
the other two flags untouched). -/
theorem bold_pair_net_neutral (pt : List Nat) (s1 e1 s2 e2 : Nat)
    (st : RenderState) (h : st.is_bold_open = false) :
    writeNodesAux pt st [.bold s1 e1, .bold s2 e2] =
      some (lit "<span style=\"font-weight:bold;\">" ++ lit "</span>", st) := by
  obtain ⟨b, bi, it⟩ := st
  cases b with
  | true => simp at h
  | false => simp [writeNodesAux, writeNode]

/-- Witness for C6 from the fresh all-false state. -/
theorem bold_pair_net_neutral_witness :
    writeNodesAux [] RenderState.init [.bold 0 0, .bold 1 1] =
      some (lit "<span style=\"font-weight:bold;\">" ++ lit "</span>", RenderState.init) :=
  bold_pair_net_neutral [] 0 0 1 1 RenderState.init rfl

theorem writeSyntax_of_mapM (pt : List Nat) (cs : List Node) (outs : List (List Nat))
    (h : cs.mapM (fun c => strSlice pt c.start c.end_) = some outs) :
    writeSyntaxChildren pt cs =
      some ((outs.map fun o => lit "<pre>" ++ o ++ lit "</pre>").flatten) := by
  induction cs generalizing outs with
  | nil =>
    simp only [List.mapM_nil] at h
    simp at h
    subst h
    simp [writeSyntaxChildren]
  | cons c cs ih =>
    rw [List.mapM_cons] at h
    cases h1 : strSlice pt c.start c.end_ with
    | none => rw [h1] at h; simp at h
    | some o =>
      rw [h1] at h
      cases h2 : cs.mapM (fun c => strSlice pt c.start c.end_) with
      | none => rw [h2] at h; simp at h
      | some os =>
        rw [h2] at h
        simp at h
        subst h
        rw [writeSyntaxChildren]
        simp [h1, ih os h2]

/-- C7: a `Tag` named `syntaxhighlight` emits, for each child in order,
`<pre>` followed by the verbatim source bytes at that child's own
offsets followed by `</pre>`, with no recursive rendering and the flags
unchanged. -/
theorem syntaxhighlight_pre_blocks (pt : List Nat) (st : RenderState) (s e : Nat)
    (cs : List Node) (outs : List (List Nat))
    (h : cs.mapM (fun c => strSlice pt c.start c.end_) = some outs) :
    writeNode pt st (.tag s e "syntaxhighlight" cs) =
      some ((outs.map fun o => lit "<pre>" ++ o ++ lit "</pre>").flatten, st) := by
  rw [writeNode]
  simp [writeSyntax_of_mapM pt cs outs h]

/-- Witness for C7: one child spanning the source text `"let x = 1;"`
yields a single `<pre>` block holding those bytes verbatim. -/
theorem syntaxhighlight_pre_blocks_witness :
    writeNode (lit "let x = 1;") RenderState.init
        (.tag 0 10 "syntaxhighlight" [.other 0 10]) =
      some (lit "<pre>let x = 1;</pre>", RenderState.init) := by
  rw [syntaxhighlight_pre_blocks (lit "let x = 1;") RenderState.init 0 10
    [.other 0 10] [lit "let x = 1;"] (by decide)]
  decide

theorem writeNode_nontoggle (pt : List Nat) (st : RenderState) (n : Node)
    (hn : n.isToggle = false) (out : List Nat) (st' : RenderState)
    (h : writeNode pt st n = some (out, st')) :
    st' = st ∧ ∀ st₂ : RenderState, writeNode pt st₂ n = some (out, st₂) := by
  cases n with
  | bold s e => simp [Node.isToggle] at hn
  | boldItalic s e => simp [Node.isToggle] at hn
  | italic s e => simp [Node.isToggle] at hn
  | preformatted s e ns =>
    cases hw : writeNodesAux pt RenderState.init ns with
    | none => simp [writeNode, hw] at h
    | some p =>
      obtain ⟨o, stf⟩ := p
      simp [writeNode, hw] at h
      refine ⟨h.2.symm, fun st₂ => ?_⟩
      simp [writeNode, hw, h.1]
  | heading s e lvl ns =>
    cases hw : writeNodesAux pt RenderState.init ns with
    | none => simp [writeNode, hw] at h
    | some p =>
      obtain ⟨o, stf⟩ := p
      simp [writeNode, hw] at h
      refine ⟨h.2.symm, fun st₂ => ?_⟩
      simp [writeNode, hw, h.1]
  | horizontalDivider s e =>
    simp [writeNode] at h
    refine ⟨h.2.symm, fun st₂ => ?_⟩
    simp [writeNode, h.1]
  | tag s e name ns =>
    by_cases hname : name = "syntaxhighlight"
    · subst hname
      cases hw : writeSyntaxChildren pt ns with
      | none => simp [writeNode, hw] at h
      | some o =>
        simp [writeNode, hw] at h
        refine ⟨h.2.symm, fun st₂ => ?_⟩
        simp [writeNode, hw, h.1]
    · cases hs : strSlice pt s e with
      | none => simp [writeNode, hname, hs] at h
      | some sub =>
        simp [writeNode, hname, hs] at h
        refine ⟨h.2.symm, fun st₂ => ?_⟩
        simp [writeNode, hname, hs, h.1]
  | orderedList s e items =>
    cases hw : writeItems pt items with
    | none => simp [writeNode, hw] at h
    | some o =>
      simp [writeNode, hw] at h
      refine ⟨h.2.symm, fun st₂ => ?_⟩
      simp [writeNode, hw, h.1]
  | unorderedList s e items =>
    cases hw : writeItems pt items with
    | none => simp [writeNode, hw] at h
    | some o =>
      simp [writeNode, hw] at h
      refine ⟨h.2.symm, fun st₂ => ?_⟩
      simp [writeNode, hw, h.1]
  | category s e =>
    simp [writeNode] at h
    refine ⟨h.2.symm, fun st₂ => ?_⟩
    simp [writeNode, h.1]
  | other s e =>
    cases hs : strSlice pt s e with
    | none => simp [writeNode, hs] at h
    | some sub =>
      simp [writeNode, hs] at h
      refine ⟨h.2.symm, fun st₂ => ?_⟩
      simp [writeNode, hs, h.1]

theorem writeNode_state (pt : List Nat) (st : RenderState) (n : Node)
    (out : List Nat) (st' : RenderState)
    (h : writeNode pt st n = some (out, st')) : st' = toggleStep st n := by
  cases n with
  | bold s e =>
    simp [writeNode] at h
    simp [toggleStep, ← h.2]
  | boldItalic s e =>
    simp [writeNode] at h
    simp [toggleStep, ← h.2]
  | italic s e =>
    simp [writeNode] at h
    simp [toggleStep, ← h.2]
  | preformatted s e ns =>
    cases hw : writeNodesAux pt RenderState.init ns with
    | none => simp [writeNode, hw] at h
    | some p =>
      obtain ⟨o, stf⟩ := p
      simp [writeNode, hw] at h
      simp [toggleStep, ← h.2]
  | heading s e lvl ns =>
    cases hw : writeNodesAux pt RenderState.init ns with
    | none => simp [writeNode, hw] at h
    | some p =>
      obtain ⟨o, stf⟩ := p
      simp [writeNode, hw] at h
      simp [toggleStep, ← h.2]
  | horizontalDivider s e =>
    simp [writeNode] at h
    simp [toggleStep, ← h.2]
  | tag s e name ns =>
    by_cases hname : name = "syntaxhighlight"
    · subst hname
      cases hw : writeSyntaxChildren pt ns with
      | none => simp [writeNode, hw] at h
      | some o =>
        simp [writeNode, hw] at h
        simp [toggleStep, ← h.2]
    · cases hs : strSlice pt s e with
      | none => simp [writeNode, hname, hs] at h
      | some sub =>
        simp [writeNode, hname, hs] at h
        simp [toggleStep, ← h.2]
  | orderedList s e items =>
    cases hw : writeItems pt items with
    | none => simp [writeNode, hw] at h
    | some o =>
      simp [writeNode, hw] at h
      simp [toggleStep, ← h.2]
  | unorderedList s e items =>
    cases hw : writeItems pt items with
    | none => simp [writeNode, hw] at h
    | some o =>
      simp [writeNode, hw] at h
      simp [toggleStep, ← h.2]
  | category s e =>
    simp [writeNode] at h
    simp [toggleStep, ← h.2]
  | other s e =>
    cases hs : strSlice pt s e with
    | none => simp [writeNode, hs] at h
    | some sub =>
      simp [writeNode, hs] at h
      simp [toggleStep, ← h.2]

/-- C9: the flags of one node-loop invocation evolve only by the
toggle-flips of the nodes at that invocation's own top level
(`toggleStep` is the identity on every non-toggle node, so toggle nodes
buried in children — rendered by fresh recursive invocations that start
from `RenderState.init` — never touch them); and when the top level has
no toggle node at all, the emitted bytes are the same from any incoming
flag state and the flags come back unchanged, so a span opened at one
recursion depth is never closed from another depth. -/
theorem toggle_flags_per_invocation (pt : List Nat) (ns : List Node)
    (st st₂ : RenderState) (out : List Nat) (st' : RenderState)
    (h : writeNodesAux pt st ns = some (out, st')) :
    st' = ns.foldl toggleStep st ∧
    ((∀ n ∈ ns, n.isToggle = false) → writeNodesAux pt st₂ ns = some (out, st₂)) := by
  induction ns generalizing st st₂ out st' with
  | nil =>
    simp [writeNodesAux] at h
    refine ⟨by simp [h.2.symm], fun _ => ?_⟩
    simp [writeNodesAux, h.1]
  | cons n rest ih =>
    rw [writeNodesAux] at h
    cases h1 : writeNode pt st n with
    | none => rw [h1] at h; simp at h
    | some p =>
      obtain ⟨o, stm⟩ := p
      rw [h1] at h
      simp at h
      cases h2 : writeNodesAux pt stm rest with
      | none => rw [h2] at h; simp at h
      | some q =>
        obtain ⟨os, stf⟩ := q
        rw [h2] at h
        simp at h
        obtain ⟨ho, hst⟩ := h
        have hstep := writeNode_state pt st n o stm h1
        constructor
        · rw [← hst, (ih stm st₂ os stf h2).1, List.foldl_cons, ← hstep]
        · intro hnt
          obtain ⟨hstm, hany⟩ :=
            writeNode_nontoggle pt st n (hnt n (by simp)) o stm h1
          rw [hstm] at h2
          have haux2 :=
            (ih st st₂ os stf h2).2 (fun m hm => hnt m (by simp [hm]))
          rw [writeNodesAux, hany st₂]
          simp [haux2, ← ho]

/-- Witness for C9: a heading whose child is a `Bold` node, run once
from the fresh state and once from the all-true state: the final flags
equal the toggle-fold (identity here), and the emitted bytes are the
same with the all-true flags handed back unchanged. -/
theorem toggle_flags_per_invocation_witness :
    RenderState.init = [Node.heading 0 0 1 [.bold 0 0]].foldl toggleStep RenderState.init ∧
    writeNodesAux [] ⟨true, true, true⟩ [.heading 0 0 1 [.bold 0 0]] =
      some (lit "<h3><span style=\"font-weight:bold;\"></h3>", ⟨true, true, true⟩) := by
  have h := toggle_flags_per_invocation [] [.heading 0 0 1 [.bold 0 0]]
    RenderState.init ⟨true, true, true⟩
    (lit "<h3><span style=\"font-weight:bold;\"></h3>") RenderState.init (by decide)
  exact ⟨h.1, h.2 (by decide)⟩

/-- C1 counterexample: the renderer does not share one `RenderState`
across recursion depths. On `[Bold, Heading 1 [Bold], Bold]` the code
(whose flags are locals of each invocation) emits an opening span for
the nested `Bold` and a closing tag for the third node, while the
shared-state renderer the claim describes would emit a closing tag for
the nested `Bold` and an opening span for the third node: the two
disagree. -/
theorem shared_state_counterexample :
    write_nodes [] [.bold 0 0, .heading 0 0 1 [.bold 0 0], .bold 1 1] ≠
      write_nodes_shared [] [.bold 0 0, .heading 0 0 1 [.bold 0 0], .bold 1 1] := by
  decide

/-- C1 amended: every recursive invocation on a child node sequence
starts from its own fresh all-false flags and its flags die with it, so
a `Bold` nested under a `Heading` leaves the outer invocation's bold
flag untouched: after `Bold, Heading c, Bold` the outer second `Bold`
still emits the closing tag paired with the first, whatever toggles
occur inside the children. -/
theorem fresh_flags_per_recursive_call (pt : List Nat) (ns : List Node)
    (s1 e1 hs he lvl s2 e2 : Nat) (inner : List Nat)
    (h : write_nodes pt ns = some inner) :
    write_nodes pt [.bold s1 e1, .heading hs he lvl ns, .bold s2 e2] =
      some (lit "<span style=\"font-weight:bold;\">"
            ++ lit "<h" ++ lit (Nat.repr (lvl + 2)) ++ lit ">" ++ inner
            ++ lit "</h" ++ lit (Nat.repr (lvl + 2)) ++ lit ">"
            ++ lit "</span>") := by
  rw [write_nodes] at h
  obtain ⟨⟨inner', stf⟩, haux, hfst⟩ := Option.map_eq_some'.mp h
  simp only [Prod.fst] at hfst
  subst hfst
  simp only [RenderState.init] at haux
  simp [write_nodes, writeNodesAux, writeNode, RenderState.init, haux]

/-- Witness for the amended C1 with a nested `Bold` as the heading's
child: the inner `Bold` opens a span inside the heading and the outer
flag still closes after it. -/
theorem fresh_flags_per_recursive_call_witness :
    write_nodes []
        [.bold 0 0, .heading 0 0 1 [.bold 0 0], .bold 1 1] =
      some (lit "<span style=\"font-weight:bold;\"><h3><span style=\"font-weight:bold;\"></h3></span>") := by
  rw [fresh_flags_per_recursive_call [] [.bold 0 0] 0 0 0 0 1 1 1
    (lit "<span style=\"font-weight:bold;\">") (by decide)]
  decide

theorem writeSyntaxChildren_isSome (pt : List Nat) (cs : List Node) :
    (writeSyntaxChildren pt cs).isSome = spanOkHighlightChildren pt cs := by
  induction cs with
  | nil => simp [writeSyntaxChildren, spanOkHighlightChildren]
  | cons c cs ih =>
    rw [writeSyntaxChildren,
      show spanOkHighlightChildren pt (c :: cs)
        = ((strSlice pt c.start c.end_).isSome && spanOkHighlightChildren pt cs) by
          simp [spanOkHighlightChildren]]
    cases h1 : strSlice pt c.start c.end_ with
    | none => simp
    | some o =>
      cases h2 : writeSyntaxChildren pt cs <;> simp_all

mutual
theorem writeNode_isSome (pt : List Nat) (st : RenderState) (n : Node) :
    (writeNode pt st n).isSome = spanOkNode pt n := by
  cases n with
  | preformatted s e ns =>
    have ih := writeNodesAux_isSome pt RenderState.init ns
    rw [writeNode, spanOkNode]
    cases hw : writeNodesAux pt RenderState.init ns with
    | none => simp_all
    | some p =>
      obtain ⟨o, stf⟩ := p
      simp_all
  | heading s e lvl ns =>
    have ih := writeNodesAux_isSome pt RenderState.init ns
    rw [writeNode, spanOkNode]
    cases hw : writeNodesAux pt RenderState.init ns with
    | none => simp_all
    | some p =>
      obtain ⟨o, stf⟩ := p
      simp_all
  | horizontalDivider s e => simp [writeNode, spanOkNode]
  | bold s e => simp [writeNode, spanOkNode]
  | boldItalic s e => simp [writeNode, spanOkNode]
  | italic s e => simp [writeNode, spanOkNode]
  | tag s e name ns =>
    rw [writeNode, spanOkNode]
    by_cases hname : name = "syntaxhighlight"
    · have ih := writeSyntaxChildren_isSome pt ns
      cases hw : writeSyntaxChildren pt ns <;> simp_all
    · cases hs : strSlice pt s e <;> simp_all
  | orderedList s e items =>
    have ih := writeItems_isSome pt items
    rw [writeNode, spanOkNode]
    cases hw : writeItems pt items <;> simp_all
  | unorderedList s e items =>
    have ih := writeItems_isSome pt items
    rw [writeNode, spanOkNode]
    cases hw : writeItems pt items <;> simp_all
  | category s e => simp [writeNode, spanOkNode]
  | other s e =>
    rw [writeNode, spanOkNode]
    cases hs : strSlice pt s e <;> simp_all

theorem writeItems_isSome (pt : List Nat) (items : List ListItem) :
    (writeItems pt items).isSome = spanOkItems pt items := by
  cases items with
  | nil => simp [writeItems, spanOkItems]
  | cons it rest =>
    obtain ⟨s, e, ns⟩ := it
    have ih1 := writeNodesAux_isSome pt RenderState.init ns
    have ih2 := writeItems_isSome pt rest
    rw [writeItems, spanOkItems]
    cases h1 : writeNodesAux pt RenderState.init ns with
    | none => simp_all
    | some p =>
      obtain ⟨o, stf⟩ := p
      cases h2 : writeItems pt rest <;> simp_all

theorem writeNodesAux_isSome (pt : List Nat) (st : RenderState) (ns : List Node) :
    (writeNodesAux pt st ns).isSome = spanOkList pt ns := by
  cases ns with
  | nil => simp [writeNodesAux, spanOkList]
  | cons n rest =>
    have ih1 := writeNode_isSome pt st n
    rw [writeNodesAux, spanOkList]
    cases h1 : writeNode pt st n with
    | none => simp_all
    | some p =>
      obtain ⟨o, st2⟩ := p
      have ih2 := writeNodesAux_isSome pt st2 rest
      cases h2 : writeNodesAux pt st2 rest <;> simp_all
end

theorem write_nodes_isSome (pt : List Nat) (ns : List Node) :
    (write_nodes pt ns).isSome = spanOkList pt ns := by
  rw [write_nodes, ← writeNodesAux_isSome pt RenderState.init ns]
  cases writeNodesAux pt RenderState.init ns <;> simp

theorem allSpanNode_own (pt : List Nat) (n : Node) (h : allSpanNode pt n = true) :
    (strSlice pt n.start n.end_).isSome = true := by
  cases n <;> simp_all [allSpanNode, Node.start, Node.end_]

theorem allSpanList_all_own (pt : List Nat) (ns : List Node)
    (h : allSpanList pt ns = true) : spanOkHighlightChildren pt ns = true := by
  induction ns with
  | nil => simp [spanOkHighlightChildren]
  | cons n rest ih =>
    rw [allSpanList] at h
    simp only [Bool.and_eq_true] at h
    simp only [spanOkHighlightChildren, List.all_cons, Bool.and_eq_true]
    exact ⟨allSpanNode_own pt n h.1, by simpa [spanOkHighlightChildren] using ih h.2⟩

mutual
theorem allSpan_spanOk_node (pt : List Nat) (n : Node)
    (h : allSpanNode pt n = true) : spanOkNode pt n = true := by
  cases n with
  | preformatted s e ns =>
    rw [allSpanNode] at h
    simp only [Bool.and_eq_true] at h
    rw [spanOkNode]
    exact allSpan_spanOk_list pt ns h.2
  | heading s e lvl ns =>
    rw [allSpanNode] at h
    simp only [Bool.and_eq_true] at h
    rw [spanOkNode]
    exact allSpan_spanOk_list pt ns h.2
  | horizontalDivider s e => simp [spanOkNode]
  | bold s e => simp [spanOkNode]
  | boldItalic s e => simp [spanOkNode]
  | italic s e => simp [spanOkNode]
  | tag s e name ns =>
    rw [allSpanNode] at h
    simp only [Bool.and_eq_true] at h
    rw [spanOkNode]
    by_cases hn : name = "syntaxhighlight"
    · simp [hn, allSpanList_all_own pt ns h.2]
    · simp [hn, h.1]
  | orderedList s e items =>
    rw [allSpanNode] at h
    simp only [Bool.and_eq_true] at h
    rw [spanOkNode]
    exact allSpan_spanOk_items pt items h.2
  | unorderedList s e items =>
    rw [allSpanNode] at h
    simp only [Bool.and_eq_true] at h
    rw [spanOkNode]
    exact allSpan_spanOk_items pt items h.2
  | category s e => simp [spanOkNode]
  | other s e =>
    rw [allSpanNode] at h
    rw [spanOkNode]
    exact h

theorem allSpan_spanOk_items (pt : List Nat) (items : List ListItem)
    (h : allSpanItems pt items = true) : spanOkItems pt items = true := by
  cases items with
  | nil => simp [spanOkItems]
  | cons it rest =>
    obtain ⟨s, e, ns⟩ := it
    rw [allSpanItems] at h
    simp only [Bool.and_eq_true] at h
    rw [spanOkItems]
    simp [allSpan_spanOk_list pt ns h.1.2, allSpan_spanOk_items pt rest h.2]

theorem allSpan_spanOk_list (pt : List Nat) (ns : List Node)
    (h : allSpanList pt ns = true) : spanOkList pt ns = true := by
  cases ns with
  | nil => simp [spanOkList]
  | cons n rest =>
    rw [allSpanList] at h
    simp only [Bool.and_eq_true] at h
    rw [spanOkList]
    simp [allSpan_spanOk_node pt n h.1, allSpan_spanOk_list pt rest h.2]
end

/-- C5: rendering a node sequence fails exactly when one of the offset
pairs it actually slices is not a valid, in-bounds, boundary-aligned
region of the source text (no clamping, no skipping — the slice failure
aborts the page); and on a tree all of whose nodes carry valid offset
pairs, rendering always runs to completion. -/
theorem render_fails_iff_malformed_span (pt : List Nat) (ns : List Node) :
    ((write_nodes pt ns).isSome = true ↔ spanOkList pt ns = true) ∧
    (allSpanList pt ns = true → (write_nodes pt ns).isSome = true) := by
  have h := write_nodes_isSome pt ns
  constructor
  · rw [h]
  · intro ha
    rw [h]
    exact allSpan_spanOk_list pt ns ha

/-- Witness for C5: a one-byte page with a well-formed span renders to
completion; discharging the all-spans-valid hypothesis at that input. -/
theorem render_fails_iff_malformed_span_witness :
    (write_nodes [97] [.other 0 1]).isSome = true :=
  (render_fails_iff_malformed_span [97] [.other 0 1]).2 (by decide)
